import Mathlib

/-!
# Verification of the stock-screener core (script.js / serverless variant)

Shallow embedding of the data-acquisition-and-valuation pipeline:
provider clients (`fetchFromFMP`, `fetchFromAlpha`), the provider resolver
(`lookupTicker`), the metrics calculator (`computeMetrics`), the universe
source (`fetchNasdaqList`) and the scan engine (`scanAllUndervalued`,
`scanAndDisplayUndervalued`).

Modelling conventions:
* JavaScript numbers are modelled exactly as `JSNum`: `nan`, the two
  infinities, or a rational (`fin q`).  Binary floating-point rounding is
  not modelled; all arithmetic in the source (divisions, comparisons,
  `toFixed`) is carried out on exact rationals.  JavaScript's negative
  zero is identified with `fin 0` (both are falsy, and every division in
  the source is guarded so that a `-0` denominator never occurs).
* Loose JSON values are `JSVal`.  Property access on `null`/`undefined`
  throws in JavaScript and is modelled by `jsGetEx` returning an error;
  `jsGet` is used only at call sites where the base value is already known
  to be truthy (hence not nullish), mirroring the source's guard order.
* Network calls are modelled by passing the provider responses as
  explicit `Except Unit JSVal` arguments (`error` = the fetch threw or the
  body failed to parse); the `try`/`catch` blocks of the source become the
  collapse of `Except` errors to an absent (`none`) result.
* `parseFloat` is implemented on decimal/exponent string literals and on
  numbers; `ToString` of composite values (arrays, objects) is not
  modelled and yields `nan` — the provider payload fields consumed by the
  source are scalars.
-/

/-!
The rational arithmetic of the embedding is routed through `Rat.divInt`
(`qdiv`, `qsub`) so that every definition evaluates inside the kernel;
the bridge lemmas `qdiv_eq` and `qsub_eq` below identify them with the
field operations of `ℚ`, which the theorems are stated with.
-/

/-- Division of rationals, computed on numerators and denominators;
equal to `a / b` (see `qdiv_eq`). -/
def qdiv (a b : ℚ) : ℚ := Rat.divInt (a.num * b.den) (a.den * b.num)

/-- Subtraction of rationals, computed on numerators and denominators;
equal to `a - b` (see `qsub_eq`). -/
def qsub (a b : ℚ) : ℚ := Rat.divInt (a.num * b.den - b.num * a.den) (a.den * b.den)

/-- A JavaScript number: NaN, plus or minus infinity, or a finite value
(modelled as an exact rational). -/
inductive JSNum where
  | nan
  | inf
  | ninf
  | fin (q : ℚ)
deriving DecidableEq, Repr

/-- JavaScript truthiness of a number: `NaN` and `0` are falsy. -/
def truthyNum : JSNum → Bool
  | .nan => false
  | .fin q => q != 0
  | _ => true

/-- JavaScript division on numbers (IEEE semantics over the `JSNum`
carrier; the `0/0` case is NaN, division by zero gives a signed
infinity, a finite value divided by an infinity gives zero). -/
def jsDiv : JSNum → JSNum → JSNum
  | .nan, _ => .nan
  | _, .nan => .nan
  | .inf, .inf => .nan
  | .inf, .ninf => .nan
  | .ninf, .inf => .nan
  | .ninf, .ninf => .nan
  | .inf, .fin b => if b < 0 then .ninf else .inf
  | .ninf, .fin b => if b < 0 then .inf else .ninf
  | .fin _, .inf => .fin 0
  | .fin _, .ninf => .fin 0
  | .fin a, .fin b =>
    if b = 0 then (if a = 0 then .nan else if a < 0 then .ninf else .inf)
    else .fin (qdiv a b)

/-- JavaScript subtraction on numbers (only the cases the sort
comparators need; any NaN operand gives NaN, `∞ - ∞` is NaN). -/
def jsSub : JSNum → JSNum → JSNum
  | .nan, _ => .nan
  | _, .nan => .nan
  | .inf, .inf => .nan
  | .inf, _ => .inf
  | .ninf, .ninf => .nan
  | .ninf, _ => .ninf
  | .fin _, .inf => .ninf
  | .fin _, .ninf => .inf
  | .fin a, .fin b => .fin (qsub a b)

/-- JavaScript `<` on numbers: false whenever either side is NaN. -/
def jsLt : JSNum → JSNum → Bool
  | .nan, _ => false
  | _, .nan => false
  | .inf, _ => false
  | .ninf, .ninf => false
  | .ninf, _ => true
  | .fin _, .inf => true
  | .fin _, .ninf => false
  | .fin a, .fin b => a < b

/-- A loosely typed JSON value, as delivered by the providers. -/
inductive JSVal where
  | undefined
  | jsnull
  | boolean (b : Bool)
  | num (n : JSNum)
  | str (s : String)
  | obj (fields : List (String × JSVal))
  | arr (elems : List JSVal)

/-- JavaScript truthiness of a value. -/
def jsTruthy : JSVal → Bool
  | .undefined => false
  | .jsnull => false
  | .boolean b => b
  | .num n => truthyNum n
  | .str s => s != ""
  | .obj _ => true
  | .arr _ => true

/-- Model of `Object.keys(v).length` for the values that can reach the call site
(the source only evaluates it on a truthy value): own enumerable keys of
an object, the indices of a string or array, nothing for primitives. -/
def keysLength : JSVal → Nat
  | .obj fs => fs.length
  | .str s => s.length
  | .arr l => l.length
  | _ => 0

/-- Property read `v[k]` for a base value already known not to be
nullish; non-object bases yield `undefined` for the named properties the
source reads. -/
def jsGet (v : JSVal) (k : String) : JSVal :=
  match v with
  | .obj fs => match fs.lookup k with
    | some x => x
    | none => .undefined
  | _ => .undefined

/-- True unless the value is `null` or `undefined`. -/
def notNullish : JSVal → Bool
  | .undefined => false
  | .jsnull => false
  | _ => true

/-- Property read that models the TypeError thrown by JavaScript when
the base value is `null` or `undefined`. -/
def jsGetEx (v : JSVal) (k : String) : Except Unit JSVal :=
  if notNullish v then .ok (jsGet v k) else .error ()

/-- JavaScript `a || b`. -/
def jsOr (a b : JSVal) : JSVal := if jsTruthy a then a else b

/-- ASCII decimal digit test. -/
def isAsciiDigit (c : Char) : Bool := '0' ≤ c && c ≤ '9'

/-- Numeric value of a list of decimal digits. -/
def digitsToNat (ds : List Char) : Nat :=
  ds.foldl (fun a c => 10 * a + (c.toNat - '0'.toNat)) 0

/-- The optional exponent part of a `StrDecimalLiteral`
(`e`/`E`, optional sign, digits); an `e` not followed by at least one
digit is not part of the literal and contributes exponent 0. -/
def parseExponent (cs : List Char) : Int :=
  match cs with
  | 'e' :: rest =>
    (match rest with
     | '+' :: r => if (r.takeWhile isAsciiDigit).isEmpty then 0
                   else (digitsToNat (r.takeWhile isAsciiDigit) : Int)
     | '-' :: r => if (r.takeWhile isAsciiDigit).isEmpty then 0
                   else -(digitsToNat (r.takeWhile isAsciiDigit) : Int)
     | r => if (r.takeWhile isAsciiDigit).isEmpty then 0
            else (digitsToNat (r.takeWhile isAsciiDigit) : Int))
  | 'E' :: rest =>
    (match rest with
     | '+' :: r => if (r.takeWhile isAsciiDigit).isEmpty then 0
                   else (digitsToNat (r.takeWhile isAsciiDigit) : Int)
     | '-' :: r => if (r.takeWhile isAsciiDigit).isEmpty then 0
                   else -(digitsToNat (r.takeWhile isAsciiDigit) : Int)
     | r => if (r.takeWhile isAsciiDigit).isEmpty then 0
            else (digitsToNat (r.takeWhile isAsciiDigit) : Int))
  | _ => 0

/-- Model of `parseFloat` on the characters of a string: skip leading
whitespace, optional sign, then the longest `Infinity`-or-decimal
literal; NaN when no digits are found. -/
def parseFloatChars (cs0 : List Char) : JSNum :=
  let cs1 := cs0.dropWhile Char.isWhitespace
  let sgn : Int := match cs1 with
    | '-' :: _ => -1
    | _ => 1
  let cs := match cs1 with
    | '+' :: r => r
    | '-' :: r => r
    | r => r
  if cs.take 8 = "Infinity".data then (if sgn < 0 then .ninf else .inf)
  else
    let intDs := cs.takeWhile isAsciiDigit
    let rest := cs.dropWhile isAsciiDigit
    let fracDs := match rest with
      | '.' :: r => r.takeWhile isAsciiDigit
      | _ => []
    let rest2 := match rest with
      | '.' :: r => r.dropWhile isAsciiDigit
      | r => r
    if intDs.isEmpty && fracDs.isEmpty then .nan
    else
      let e := parseExponent rest2
      let n : Int := sgn * (digitsToNat (intDs ++ fracDs) : Int) * 10 ^ e.toNat
      let d : Nat := 10 ^ fracDs.length * 10 ^ (-e).toNat
      .fin (Rat.divInt n d)

/-- JavaScript `parseFloat`: numbers pass through unchanged (`parseFloat`
round-trips every number through `ToString`), strings are parsed,
`undefined`/`null`/booleans stringify to non-numeric text, hence NaN.
`ToString` of arrays/objects is not modelled (the provider fields the
source parses are scalars) and also yields NaN. -/
def parseFloat : JSVal → JSNum
  | .num n => n
  | .str s => parseFloatChars s.data
  | _ => .nan

section ToFixed

/-- Decimal digits of `n`, most significant first (fuelled structural
recursion so that the kernel can evaluate it; the fuel `n + 1` is always
sufficient). -/
def natCharsAux : Nat → Nat → List Char
  | 0, _ => []
  | fuel + 1, n =>
    if n < 10 then [Nat.digitChar n]
    else natCharsAux fuel (n / 10) ++ [Nat.digitChar (n % 10)]

/-- Decimal representation of a natural number. -/
def natChars (n : Nat) : List Char := natCharsAux (n + 1) n

/-- Model of `Number.prototype.toFixed` on a non-negative rational: the integer
`m` nearest to `q * 10^d` (ties towards the larger value, i.e.
`⌊q * 10^d + 1/2⌋`, computed on the numerator and denominator; see
`toFixed_rounding_eq` for the identification with the floor), rendered
with `d` forced decimals. -/
def toFixedPosChars (q : ℚ) (d : Nat) : List Char :=
  let m : Nat := (2 * (q.num * 10 ^ d) + (q.den : Int)).toNat / (2 * q.den)
  if d = 0 then natChars m
  else
    natChars (m / 10 ^ d) ++ '.' ::
      (List.replicate (d - (natChars (m % 10 ^ d)).length) '0' ++ natChars (m % 10 ^ d))

/-- Model of `Number.prototype.toFixed` on a rational: negative values are
negated first and prefixed with a minus sign (ES semantics). -/
def toFixedChars (q : ℚ) (d : Nat) : List Char :=
  if q < 0 then '-' :: toFixedPosChars (-q) d else toFixedPosChars q d

end ToFixed

/-- The `format` helper of `computeMetrics`: finite numbers render with
`toFixed`, everything else (absent, NaN, infinities) renders as the
sentinel string. -/
def format (o : Option JSNum) (d : Nat) : String :=
  match o with
  | some (.fin q) => String.mk (toFixedChars q d)
  | _ => "N/A"

/-- The guard `typeof x === 'number' && !isNaN(x) ? x : null` applied to
an optional field (a missing field reads as `undefined`, which fails the
`typeof` test). -/
def numGuard : Option JSNum → Option JSNum
  | some n => if n = .nan then none else some n
  | none => none

/-- Truthiness of a possibly-null number (`null` is falsy). -/
def optTruthy : Option JSNum → Bool
  | some v => truthyNum v
  | none => false

/-- The pattern `a && b ? a / b : null` on possibly-null numbers. -/
def condDiv (a b : Option JSNum) : Option JSNum :=
  match a, b with
  | some x, some y => if truthyNum x && truthyNum y then some (jsDiv x y) else none
  | _, _ => none

/-- The raw per-symbol snapshot a provider returns.  A `none` field is a
property missing from the record (the FMP variant has no `evToEbitda`);
a present field is a JavaScript number, possibly NaN. -/
structure FundamentalData where
  price : Option JSNum
  eps : Option JSNum
  bookValue : Option JSNum
  enterpriseValue : Option JSNum
  ebitda : Option JSNum
  evToEbitda : Option JSNum
  dividendPerShare : Option JSNum
  dividendYield : Option JSNum
deriving DecidableEq, Repr

/-- The display-ready record `computeMetrics` produces. -/
structure ValuationMetrics where
  price : String
  eps : String
  pe : String
  bookValue : String
  pb : String
  evEbitda : String
  dividendPerShare : String
  dividendYield : String
  intrinsicDividend : String
deriving DecidableEq, Repr

/-- The fixed Gordon-growth discount rate `0.08` of the source
(`mkRat` keeps it kernel-computable; it equals `2 / 25`). -/
def discountRate : ℚ := mkRat 2 25

/-- Embedding of `computeMetrics` of the source: guard every input field, derive the
ratios under JavaScript truthiness, format with `toFixed` (two decimals,
four for the dividend yield). -/
def computeMetrics (data : FundamentalData) : ValuationMetrics :=
  let price := numGuard data.price
  let eps := numGuard data.eps
  let bookValue := numGuard data.bookValue
  let enterpriseValue := numGuard data.enterpriseValue
  let ebitda := numGuard data.ebitda
  let evToEbitda := match numGuard data.evToEbitda with
    | some v => some v
    | none => condDiv enterpriseValue ebitda
  let dividendPerShare := numGuard data.dividendPerShare
  let dividendYield := match numGuard data.dividendYield with
    | some v => some v
    | none => condDiv dividendPerShare price
  let pe := condDiv price eps
  let pb := condDiv price bookValue
  let intrinsicDividend := match dividendPerShare with
    | some dv => if truthyNum dv then some (jsDiv dv (.fin discountRate)) else none
    | none => none
  { price := format price 2
    eps := format eps 2
    pe := format pe 2
    bookValue := format bookValue 2
    pb := format pb 2
    evEbitda := format evToEbitda 2
    dividendPerShare := format dividendPerShare 2
    dividendYield := format dividendYield 4
    intrinsicDividend := format intrinsicDividend 2 }

/-- The configured provider keys (`API_KEYS`); an empty string is a
falsy key, i.e. the provider is unconfigured. -/
structure ApiKeys where
  alpha : String
  fmp : String

/-- JavaScript truthiness of a string: only `""` is falsy. -/
def strTruthy (s : String) : Bool := s != ""

/-- Model of `symbol.toUpperCase()` (ASCII; ticker symbols). -/
def jsUpper (s : String) : String := String.mk (s.data.map Char.toUpper)

/-- Model of `String.prototype.trim`: strip leading and trailing whitespace. -/
def jsTrim (s : String) : String :=
  String.mk (((s.data.dropWhile Char.isWhitespace).reverse.dropWhile Char.isWhitespace).reverse)

/-- The `metricsData` post-processing of `fetchFromFMP`: the first element
of a non-empty array, otherwise the empty object `{}`. -/
def metricsVal (m : JSVal) : JSVal :=
  match m with
  | .arr (x :: _) => x
  | _ => .obj []

/-- The body of `fetchFromFMP`'s `try` block after the quote response
has been checked to be a non-empty array with first element `quote`.
Every property read models the TypeError JavaScript would throw on a
nullish base; the quote-object reads after the first successful
`quote.price` cannot throw (the base is known non-nullish) and are
evaluated unconditionally, which agrees with the source's short-circuit
`||` chains value-for-value. -/
def fetchFromFMPBody (quote : JSVal) (metricsResp : Except Unit JSVal) :
    Except Unit FundamentalData := do
  let priceV ← jsGetEx quote "price"
  let price := parseFloat priceV
  let metricsData ← metricsResp
  let metrics := metricsVal metricsData
  let me1 ← jsGetEx metrics "EarningsPerShareTTM"
  let qe1 ← jsGetEx quote "eps"
  let qe2 ← jsGetEx quote "epsTTM"
  let eps := parseFloat (jsOr me1 (jsOr qe1 qe2))
  let mb1 ← jsGetEx metrics "bookValuePerShare"
  let mb2 ← jsGetEx metrics "bookValue"
  let bookValue := parseFloat (jsOr mb1 mb2)
  let mev ← jsGetEx metrics "enterpriseValue"
  let qev ← jsGetEx quote "enterpriseValue"
  let enterpriseValue := parseFloat (jsOr mev qev)
  let meb ← jsGetEx metrics "EBITDA"
  let qeb ← jsGetEx quote "ebitda"
  let ebitda := parseFloat (jsOr meb qeb)
  let mdps ← jsGetEx metrics "dividendPerShare"
  let qdps ← jsGetEx quote "lastDiv"
  let dividendPerShare := parseFloat (jsOr mdps qdps)
  let mdy ← jsGetEx metrics "dividendYield"
  let qdy ← jsGetEx quote "dividendYield"
  let dividendYield := parseFloat (jsOr mdy qdy)
  return { price := some price
           eps := some eps
           bookValue := some bookValue
           enterpriseValue := some enterpriseValue
           ebitda := some ebitda
           evToEbitda := none
           dividendPerShare := some dividendPerShare
           dividendYield := some dividendYield }

/-- Embedding of `fetchFromFMP` (Variant A): absent without a configured key; absent
when the quote response is not a non-empty array; otherwise the body
runs, with any thrown error caught and converted to absent.  The two
network responses are passed in explicitly (`error` = the fetch threw). -/
def fetchFromFMP (keys : ApiKeys) (quoteResp metricsResp : Except Unit JSVal) :
    Option FundamentalData :=
  if !strTruthy keys.fmp then none
  else
    match quoteResp with
    | .error _ => none
    | .ok quoteData =>
      match quoteData with
      | .arr (quote :: _) =>
        match fetchFromFMPBody quote metricsResp with
        | .ok r => some r
        | .error _ => none
      | _ => none

/-- Embedding of `fetchFromAlpha` (Variant B): absent without a configured key;
absent when the overview is falsy, an empty object, or carries a `Note`
or `Error Message` marker; absent when the `Global Quote` lookup throws
(nullish quote response) or the quote or its `05. price` field is
falsy; otherwise a record of the parsed overview fields plus the quoted
price. -/
def fetchFromAlpha (keys : ApiKeys) (overviewResp quoteResp : Except Unit JSVal) :
    Option FundamentalData :=
  if !strTruthy keys.alpha then none
  else
    match overviewResp with
    | .error _ => none
    | .ok overview =>
      if !jsTruthy overview || keysLength overview == 0
          || jsTruthy (jsGet overview "Note") || jsTruthy (jsGet overview "Error Message") then
        none
      else
        match quoteResp with
        | .error _ => none
        | .ok quoteData =>
          match jsGetEx quoteData "Global Quote" with
          | .error _ => none
          | .ok quote =>
            if !jsTruthy quote || !jsTruthy (jsGet quote "05. price") then none
            else
              some { price := some (parseFloat (jsGet quote "05. price"))
                     eps := some (parseFloat (jsGet overview "EPS"))
                     bookValue := some (parseFloat (jsGet overview "BookValue"))
                     enterpriseValue := some (parseFloat (jsGet overview "EnterpriseValue"))
                     ebitda := some (parseFloat (jsGet overview "EBITDA"))
                     evToEbitda := some (parseFloat (jsGet overview "EVToEBITDA"))
                     dividendPerShare := some (parseFloat (jsGet overview "DividendPerShare"))
                     dividendYield := some (parseFloat (jsGet overview "DividendYield")) }

/-- Embedding of `lookupTicker`, instrumented: the provider clients are passed as
functions from the upper-cased symbol to their result, and the two
booleans record whether each client was invoked.  Variant A (FMP) runs
only under a truthy FMP key; Variant B (Alpha Vantage) runs only under
a truthy Alpha key and only when the first stage produced `null`. -/
def lookupTickerTrace (keys : ApiKeys) (fmpF alphaF : String → Option FundamentalData)
    (symbol : String) : Option FundamentalData × Bool × Bool :=
  let upper := jsUpper symbol
  let data := if strTruthy keys.fmp then fmpF upper else none
  if data.isNone && strTruthy keys.alpha then (alphaF upper, strTruthy keys.fmp, true)
  else (data, strTruthy keys.fmp, false)

/-- Embedding of `lookupTicker`: the resolved fundamental data (first non-absent
provider result in priority order). -/
def lookupTicker (keys : ApiKeys) (fmpF alphaF : String → Option FundamentalData)
    (symbol : String) : Option FundamentalData :=
  (lookupTickerTrace keys fmpF alphaF symbol).1

/-- The fixed-path extraction `data.data.table.rows` of
`fetchNasdaqList`, yielding `[]` unless every step is truthy and the
final step is an array. -/
def extractRows (data : JSVal) : List JSVal :=
  if !jsTruthy data then []
  else if !jsTruthy (jsGet data "data") then []
  else if !jsTruthy (jsGet (jsGet data "data") "table") then []
  else
    match jsGet (jsGet (jsGet data "data") "table") "rows" with
    | .arr l => l
    | _ => []

/-- Model of `(r.symbol || '').trim()` for one listing row: reading `symbol` off
a nullish row throws, `.trim()` on a truthy non-string value throws;
both propagate to the enclosing catch. -/
def rowSymbol (r : JSVal) : Except Unit String := do
  let sv ← jsGetEx r "symbol"
  match jsOr sv (.str "") with
  | .str s => return jsTrim s
  | _ => .error ()

/-- The trimmed, non-empty symbol list extracted from a listing
response (the value of `symbols` in `fetchNasdaqList`); any thrown
error or a failed fetch yields `[]` via the enclosing catch. -/
def symbolsOf (resp : Except Unit JSVal) : List String :=
  match resp with
  | .error _ => []
  | .ok data =>
    match (extractRows data).mapM rowSymbol with
    | .ok syms => syms.filter (fun s => s != "")
    | .error _ => []

/-- The limit handling of `fetchNasdaqList`: a falsy (`0`, NaN),
non-finite, or non-positive limit returns the whole list; a positive
finite limit slices to the first `limit` symbols (`Array.prototype.slice`
truncates a fractional bound towards zero). -/
def applyLimit (limit : JSNum) (symbols : List String) : List String :=
  if !truthyNum limit then symbols
  else
    match limit with
    | .fin q => if q ≤ 0 then symbols else symbols.take (q.num.toNat / q.den)
    | _ => symbols

/-- Embedding of `fetchNasdaqList`: symbol extraction followed by the limit rule. -/
def fetchNasdaqList (limit : JSNum) (resp : Except Unit JSVal) : List String :=
  applyLimit limit (symbolsOf resp)

/-- The per-symbol intrinsic-value computation shared by both scan
modes: `dividend ? dividend / 0.08 : null` applied to the guarded
`dividendPerShare`. -/
def intrinsicOf (f : FundamentalData) : Option JSNum :=
  match numGuard f.dividendPerShare with
  | some dv => if truthyNum dv then some (jsDiv dv (.fin discountRate)) else none
  | none => none

/-- The inclusion test both scan modes apply to a resolved record:
`price != null && intrinsicVal != null && price < intrinsicVal`. -/
def includeTest (f : FundamentalData) : Bool :=
  match numGuard f.price, intrinsicOf f with
  | some p, some iv => jsLt p iv
  | _, _ => false

/-- An accumulated scan row: upper-cased ticker, the formatted metrics,
and the two transient numeric fields used only for ranking. -/
structure ScanRow where
  ticker : String
  metrics : ValuationMetrics
  priceNumeric : JSNum
  intrinsicNumeric : JSNum
deriving DecidableEq, Repr

/-- A row as handed to the rendering sink: ticker plus metrics, the
transient numeric fields stripped. -/
structure DisplayRow where
  ticker : String
  metrics : ValuationMetrics
deriving DecidableEq, Repr

/-- Drop the transient ranking fields from a scan row. -/
def stripRow (r : ScanRow) : DisplayRow := ⟨r.ticker, r.metrics⟩

/-- One loop iteration of either scan mode: resolve the symbol, skip on
absent data, apply the inclusion test, and build the row (the `lookup`
argument models `lookupTicker` with the keys and providers fixed). -/
def rowOf (lookup : String → Option FundamentalData) (symbol : String) : Option ScanRow :=
  match lookup symbol with
  | none => none
  | some f =>
    match numGuard f.price, intrinsicOf f with
    | some p, some iv =>
      if jsLt p iv then some ⟨jsUpper symbol, computeMetrics f, p, iv⟩ else none
    | _, _ => none

/-- The qualifying rows of a scan pass, in universe order. -/
def scanRows (tickers : List String) (lookup : String → Option FundamentalData) :
    List ScanRow :=
  tickers.filterMap (rowOf lookup)

/-- The batch-mode comparator key: `price/intrinsic` when both transient
fields are truthy, `Infinity` otherwise. -/
def batchKey (r : ScanRow) : JSNum :=
  if truthyNum r.priceNumeric && truthyNum r.intrinsicNumeric then
    jsDiv r.priceNumeric r.intrinsicNumeric
  else .inf

/-- The streaming-mode comparator key: `price/intrinsic`, unguarded. -/
def streamKey (r : ScanRow) : JSNum := jsDiv r.priceNumeric r.intrinsicNumeric

/-- The relation "a is ranked no later than b" for a subtraction comparator: the
comparator value `key a - key b` is non-positive, or NaN (which
`Array.prototype.sort` treats as equality). -/
def cmpLe (key : ScanRow → JSNum) (a b : ScanRow) : Bool :=
  match jsSub (key a) (key b) with
  | .fin q => q ≤ 0
  | .inf => false
  | _ => true

/-- Insert `x` into `l` after every element ranked no later than it —
the position a stable sort gives the most recently appended element. -/
def insLast {α : Type} (le : α → α → Bool) (x : α) : List α → List α
  | [] => [x]
  | y :: ys => if le y x then y :: insLast le x ys else x :: y :: ys

/-- Model of `Array.prototype.sort` with a consistent comparator: the
unique stable sort, computed by left-to-right insertion. -/
def jsSortBy {α : Type} (le : α → α → Bool) (l : List α) : List α :=
  l.foldl (fun acc y => insLast le y acc) []

/-- The ranked result set of a batch scan before the transient fields
are stripped: all qualifying rows, sorted once by the guarded ratio
key. -/
def scanAllRanked (tickers : List String) (lookup : String → Option FundamentalData) :
    List ScanRow :=
  jsSortBy (cmpLe batchKey) (scanRows tickers lookup)

/-- Embedding of `scanAllUndervalued` over a given universe and resolver: collect
the qualifying rows, sort once by the guarded ratio key, strip the
transient fields. -/
def scanAllUndervalued (tickers : List String) (lookup : String → Option FundamentalData) :
    List DisplayRow :=
  (scanAllRanked tickers lookup).map stripRow

/-- Boolean adjacent-sortedness of a row list under a comparator key
(each row ranked no later than its successor). -/
def sortedByKey (key : ScanRow → JSNum) : List ScanRow → Bool
  | [] => true
  | [_] => true
  | a :: b :: t => cmpLe key a b && sortedByKey key (b :: t)

/-- One loop iteration of `scanAndDisplayUndervalued`: on a qualifying
row, append it, re-sort in place by the unguarded ratio key, and emit
the stripped current ranked set to the sink. -/
def streamStep (lookup : String → Option FundamentalData)
    (s : List ScanRow × List (List DisplayRow)) (symbol : String) :
    List ScanRow × List (List DisplayRow) :=
  match rowOf lookup symbol with
  | none => s
  | some r =>
    let rs := jsSortBy (cmpLe streamKey) (s.1 ++ [r])
    (rs, s.2 ++ [rs.map stripRow])

/-- Embedding of `scanAndDisplayUndervalued` over a given universe and resolver: the
sequence of row lists handed to the rendering sink, in emission order. -/
def scanAndDisplayUndervalued (tickers : List String)
    (lookup : String → Option FundamentalData) : List (List DisplayRow) :=
  (tickers.foldl (streamStep lookup) ([], [])).2

/-- The final state the streaming sink is left with: the last emitted
row list, or the cleared (empty) display when no row ever qualified. -/
def finalDisplayed (tickers : List String) (lookup : String → Option FundamentalData) :
    List DisplayRow :=
  (scanAndDisplayUndervalued tickers lookup).getLastD []

/-- A field that is a finite number (`typeof x === 'number'`, not NaN,
not an infinity). -/
def isFiniteOpt : Option JSNum → Bool
  | some (.fin _) => true
  | _ => false

/-- A field that is a finite, non-zero (truthy) number. -/
def finNonzeroOpt : Option JSNum → Bool
  | some (.fin q) => q != 0
  | _ => false

/-- A field that is a number other than NaN (the source's
`typeof x === 'number' && !isNaN(x)` guard). -/
def numberOpt (o : Option JSNum) : Bool := (numGuard o).isSome

/-- Per-symbol regularity condition under which the two scan modes
rank identically: any resolved record that passes the inclusion test
has a finite non-zero price and a finite dividend per share. -/
def rowOkB : Option FundamentalData → Bool
  | none => true
  | some f =>
    !includeTest f
      || (finNonzeroOpt (numGuard f.price) && isFiniteOpt (numGuard f.dividendPerShare))

/-! ### Properties of the sort model -/

/-! ### Bridge lemmas for the rational arithmetic -/

theorem num_eq_mul_den (a : ℚ) : (a.num : ℚ) = a * (a.den : ℚ) := by
  have hden : ((a.den : ℚ)) ≠ 0 := Nat.cast_ne_zero.mpr a.den_nz
  have h := Rat.num_div_den a
  rw [div_eq_iff hden] at h
  exact h

theorem qdiv_eq (a b : ℚ) (hb : b ≠ 0) : qdiv a b = a / b := by
  have had : ((a.den : ℚ)) ≠ 0 := Nat.cast_ne_zero.mpr a.den_nz
  have hbn : ((b.num : ℚ)) ≠ 0 := by exact_mod_cast Rat.num_ne_zero.mpr hb
  rw [qdiv, Rat.divInt_eq_div]
  push_cast
  rw [div_eq_div_iff (mul_ne_zero had hbn) hb, num_eq_mul_den a, num_eq_mul_den b]
  ring

theorem qsub_eq (a b : ℚ) : qsub a b = a - b := by
  have had : ((a.den : ℚ)) ≠ 0 := Nat.cast_ne_zero.mpr a.den_nz
  have hbd : ((b.den : ℚ)) ≠ 0 := Nat.cast_ne_zero.mpr b.den_nz
  rw [qsub, Rat.divInt_eq_div]
  push_cast
  rw [div_eq_iff (mul_ne_zero had hbd), num_eq_mul_den a, num_eq_mul_den b]
  ring

/-- The integer computed by `toFixedPosChars` is exactly
`⌊q * 10^d + 1/2⌋`, the ES-specified rounding for a non-negative
argument (nearest integer, ties towards the larger one). -/
theorem toFixed_rounding_eq (q : ℚ) (d : Nat) (hq : 0 ≤ q) :
    (((2 * (q.num * 10 ^ d) + (q.den : Int)).toNat / (2 * q.den) : ℕ) : ℤ)
      = ⌊q * (10 : ℚ) ^ d + 1 / 2⌋ := by
  have hdenq : ((q.den : ℚ)) ≠ 0 := Nat.cast_ne_zero.mpr q.den_nz
  have hdenpos : (0 : ℚ) < (q.den : ℚ) := by
    exact_mod_cast q.pos
  have hnum : 0 ≤ q.num := Rat.num_nonneg.mpr hq
  have hN : (0 : ℤ) ≤ 2 * (q.num * 10 ^ d) + (q.den : Int) := by positivity
  have key : q * (10 : ℚ) ^ d + 1 / 2
      = (((2 * (q.num * 10 ^ d) + (q.den : Int)).toNat : ℤ) : ℚ) / ((2 * q.den : ℕ) : ℚ) := by
    rw [Int.toNat_of_nonneg hN]
    rw [eq_div_iff (by positivity)]
    push_cast
    rw [num_eq_mul_den q]
    ring
  rw [key]
  have hfl := Rat.floor_intCast_div_natCast ((2 * (q.num * 10 ^ d) + (q.den : Int)).toNat : ℤ)
    (2 * q.den)
  rw [hfl]
  rw [Int.ofNat_div, Int.tdiv_eq_ediv (Int.natCast_nonneg _) (Int.natCast_nonneg _)]



section SortLemmas

variable {α : Type}

theorem mem_insLast (le : α → α → Bool) (x a : α) (l : List α) :
    a ∈ insLast le x l ↔ a = x ∨ a ∈ l := by
  induction l with
  | nil => simp [insLast]
  | cons y ys ih =>
    rw [insLast]
    by_cases h : le y x = true
    · rw [if_pos h]
      simp only [List.mem_cons, ih]
      tauto
    · rw [if_neg h]
      simp only [List.mem_cons]

theorem insLast_chain (le : α → α → Bool)
    (htot : ∀ a b, le a b = true ∨ le b a = true) (x : α) (l : List α)
    (hl : List.Chain' (fun a b => le a b = true) l) :
    List.Chain' (fun a b => le a b = true) (insLast le x l) := by
  induction l with
  | nil => simp [insLast]
  | cons y ys ih =>
    rcases List.chain'_cons'.mp hl with ⟨hhead, htail⟩
    by_cases h : le y x = true
    · rw [insLast, if_pos h]
      refine List.chain'_cons'.mpr ⟨?_, ih htail⟩
      intro z hz
      cases ys with
      | nil =>
        simp [insLast] at hz
        subst hz
        exact h
      | cons w ws =>
        by_cases hw : le w x = true
        · simp [insLast, hw] at hz
          subst hz
          exact hhead w rfl
        · simp [insLast, hw] at hz
          subst hz
          exact h
    · rw [insLast, if_neg h]
      refine List.chain'_cons'.mpr ⟨?_, hl⟩
      intro z hz
      simp at hz
      subst hz
      rcases htot x y with h' | h'
      · exact h'
      · exact absurd h' h

theorem jsSortBy_chain (le : α → α → Bool)
    (htot : ∀ a b, le a b = true ∨ le b a = true) (l : List α) :
    List.Chain' (fun a b => le a b = true) (jsSortBy le l) := by
  suffices h : ∀ acc, List.Chain' (fun a b => le a b = true) acc →
      List.Chain' (fun a b => le a b = true)
        (l.foldl (fun acc y => insLast le y acc) acc) by
    exact h [] (by simp)
  induction l with
  | nil => intro acc hacc; simpa using hacc
  | cons y ys ih =>
    intro acc hacc
    exact ih _ (insLast_chain le htot y acc hacc)

theorem jsSortBy_append_one (le : α → α → Bool) (l : List α) (x : α) :
    jsSortBy le (l ++ [x]) = insLast le x (jsSortBy le l) := by
  simp [jsSortBy, List.foldl_append]

theorem mem_jsSortBy (le : α → α → Bool) (a : α) (l : List α) :
    a ∈ jsSortBy le l ↔ a ∈ l := by
  suffices h : ∀ acc, a ∈ l.foldl (fun acc y => insLast le y acc) acc ↔ a ∈ acc ∨ a ∈ l by
    simpa using h []
  induction l with
  | nil => simp
  | cons y ys ih =>
    intro acc
    rw [List.foldl_cons, ih, mem_insLast]
    simp
    tauto

theorem insLast_append (le : α → α → Bool) (x : α) (l : List α)
    (h : ∀ y ∈ l, le y x = true) : insLast le x l = l ++ [x] := by
  induction l with
  | nil => simp [insLast]
  | cons y ys ih =>
    rw [insLast, if_pos (h y (by simp))]
    rw [ih (fun z hz => h z (by simp [hz]))]
    simp

theorem chain_pairwise (le : α → α → Bool) (P : α → Prop)
    (htrans : ∀ a b c, P a → P b → P c →
      le a b = true → le b c = true → le a c = true)
    (l : List α) (hP : ∀ y ∈ l, P y)
    (hc : List.Chain' (fun a b => le a b = true) l) :
    l.Pairwise (fun a b => le a b = true) := by
  induction l with
  | nil => simp
  | cons a l' ih =>
    rcases List.chain'_cons'.mp hc with ⟨hhead, htail⟩
    refine List.pairwise_cons.mpr ⟨?_, ih (fun y hy => hP y (by simp [hy])) htail⟩
    intro b hb
    cases l' with
    | nil => simp at hb
    | cons h t =>
      have hah : le a h = true := hhead h rfl
      rcases List.mem_cons.mp hb with rfl | hbt
      · exact hah
      · have hpw := ih (fun y hy => hP y (by simp [hy])) htail
        have hhb : le h b = true := (List.pairwise_cons.mp hpw).1 b hbt
        exact htrans a h b (hP a (by simp)) (hP h (by simp))
          (hP b (by simp [hb])) hah hhb

theorem jsSortBy_sorted_id (le : α → α → Bool) (P : α → Prop)
    (htrans : ∀ a b c, P a → P b → P c →
      le a b = true → le b c = true → le a c = true)
    (l : List α) (hP : ∀ y ∈ l, P y)
    (hc : List.Chain' (fun a b => le a b = true) l) :
    jsSortBy le l = l := by
  induction l using List.reverseRecOn with
  | nil => rfl
  | append_singleton l x ih =>
    have hcl : List.Chain' (fun a b => le a b = true) l :=
      (List.chain'_append.mp hc).1
    rw [jsSortBy_append_one, ih (fun y hy => hP y (by simp [hy])) hcl]
    refine insLast_append le x l ?_
    have hpw := chain_pairwise le P htrans (l ++ [x]) hP hc
    rcases List.pairwise_append.mp hpw with ⟨-, -, hcross⟩
    intro y hy
    exact hcross y hy x (by simp)

theorem insLast_congr (le₁ le₂ : α → α → Bool) (Q : α → Prop)
    (hagree : ∀ a b, Q a → Q b → le₁ a b = le₂ a b) (x : α) (hx : Q x)
    (l : List α) (hl : ∀ y ∈ l, Q y) :
    insLast le₁ x l = insLast le₂ x l := by
  induction l with
  | nil => rfl
  | cons y ys ih =>
    have hy : Q y := hl y (by simp)
    rw [insLast, insLast, hagree y x hy hx, ih (fun z hz => hl z (by simp [hz]))]

theorem jsSortBy_congr (le₁ le₂ : α → α → Bool) (Q : α → Prop)
    (hagree : ∀ a b, Q a → Q b → le₁ a b = le₂ a b)
    (l : List α) (hl : ∀ y ∈ l, Q y) :
    jsSortBy le₁ l = jsSortBy le₂ l := by
  suffices h : ∀ acc, (∀ y ∈ acc, Q y) →
      l.foldl (fun acc y => insLast le₁ y acc) acc
        = l.foldl (fun acc y => insLast le₂ y acc) acc by
    exact h [] (by simp)
  induction l with
  | nil => intro acc _; rfl
  | cons y ys ih =>
    intro acc hacc
    have hy : Q y := hl y (by simp)
    rw [List.foldl_cons, List.foldl_cons, insLast_congr le₁ le₂ Q hagree y hy acc hacc]
    refine ih (fun z hz => hl z (by simp [hz])) _ ?_
    intro z hz
    rcases (mem_insLast le₂ y z acc).mp hz with rfl | hz'
    · exact hy
    · exact hacc z hz'

end SortLemmas

/-- Reflexivity of the comparator order (the comparator of the source
returns `key a - key a`, which is `0` or NaN; both count as "no
later"). -/
theorem cmpLe_refl (key : ScanRow → JSNum) (a : ScanRow) : cmpLe key a a = true := by
  rcases h : key a with _ | _ | _ | q <;> simp [cmpLe, jsSub, h, qsub_eq]

/-- Totality of the comparator order. -/
theorem cmpLe_total (key : ScanRow → JSNum) (a b : ScanRow) :
    cmpLe key a b = true ∨ cmpLe key b a = true := by
  rcases ha : key a with _ | _ | _ | qa <;> rcases hb : key b with _ | _ | _ | qb <;>
    simp [cmpLe, jsSub, ha, hb, qsub_eq, sub_nonpos] <;> exact le_total qa qb

/-- Transitivity of the comparator order on rows whose keys are finite
(comparator values never NaN there, making the comparator consistent). -/
theorem cmpLe_trans_fin (key : ScanRow → JSNum) (a b c : ScanRow)
    (ha : ∃ q, key a = .fin q) (hb : ∃ q, key b = .fin q) (hc : ∃ q, key c = .fin q)
    (h₁ : cmpLe key a b = true) (h₂ : cmpLe key b c = true) :
    cmpLe key a c = true := by
  rcases ha with ⟨qa, ha⟩
  rcases hb with ⟨qb, hb⟩
  rcases hc with ⟨qc, hc⟩
  simp [cmpLe, jsSub, ha, hb, hc, qsub_eq, sub_nonpos] at h₁ h₂ ⊢
  exact le_trans h₁ h₂

/-! ### The streaming scan as an incremental sort -/

theorem scanRows_cons (lookup : String → Option FundamentalData) (t : String)
    (ts : List String) :
    scanRows (t :: ts) lookup
      = match rowOf lookup t with
        | some r => r :: scanRows ts lookup
        | none => scanRows ts lookup := by
  rw [scanRows, List.filterMap_cons]
  rcases rowOf lookup t with _ | r <;> rfl

theorem mem_scanRows (tickers : List String) (lookup : String → Option FundamentalData)
    (r : ScanRow) (hr : r ∈ scanRows tickers lookup) :
    ∃ s ∈ tickers, rowOf lookup s = some r := by
  rcases List.mem_filterMap.mp hr with ⟨s, hs, hmap⟩
  exact ⟨s, hs, hmap⟩

/-- Under the regularity condition, every qualifying row has finite
non-zero numeric ranking fields. -/
theorem scanRow_fin_of_rowOk (tickers : List String)
    (lookup : String → Option FundamentalData)
    (hok : ∀ s ∈ tickers, rowOkB (lookup s) = true)
    (r : ScanRow) (hr : r ∈ scanRows tickers lookup) :
    ∃ p i, r.priceNumeric = .fin p ∧ p ≠ 0 ∧ r.intrinsicNumeric = .fin i ∧ i ≠ 0 := by
  rcases mem_scanRows tickers lookup r hr with ⟨s, hs, hrow⟩
  have hoks := hok s hs
  rw [rowOf] at hrow
  rcases hlk : lookup s with _ | f
  · rw [hlk] at hrow; exact absurd hrow (by simp)
  rw [hlk] at hrow
  rw [hlk] at hoks
  simp only [rowOkB] at hoks
  simp only at hrow
  rcases hp : numGuard f.price with _ | p₀
  · rw [hp] at hrow; exact absurd hrow (by simp)
  rcases hi : intrinsicOf f with _ | iv
  · rw [hp, hi] at hrow; exact absurd hrow (by simp)
  rw [hp, hi] at hrow
  simp only at hrow
  by_cases hlt : jsLt p₀ iv = true
  · rw [if_pos hlt] at hrow
    have hinc : includeTest f = true := by
      rw [includeTest, hp, hi]
      exact hlt
    rw [hinc] at hoks
    simp only [Bool.not_true, Bool.false_or, Bool.and_eq_true] at hoks
    rcases hoks with ⟨hpz, hdf⟩
    rw [hp] at hpz
    rcases p₀ with _ | _ | _ | p <;> simp [finNonzeroOpt] at hpz
    -- priceNumeric
    rcases hd : numGuard f.dividendPerShare with _ | dv
    · rw [intrinsicOf, hd] at hi; exact absurd hi (by simp)
    rw [hd] at hdf
    rcases dv with _ | _ | _ | d <;> simp [isFiniteOpt] at hdf
    rw [intrinsicOf, hd] at hi
    simp only at hi
    by_cases hd0 : d = 0
    · subst hd0
      simp [truthyNum] at hi
    · have hdr : (discountRate : ℚ) ≠ 0 := by decide
      simp [truthyNum, hd0, jsDiv, hdr] at hi
      subst hi
      have req := Option.some.inj hrow
      subst req
      refine ⟨p, qdiv d discountRate, rfl, hpz, rfl, ?_⟩
      rw [qdiv_eq d discountRate hdr]
      exact div_ne_zero hd0 hdr
  · rw [if_neg hlt] at hrow
    exact absurd hrow (by simp)

/-- Under the regularity condition the stream key of every qualifying
row is finite and agrees with the batch key. -/
theorem keys_agree_of_rowOk (tickers : List String)
    (lookup : String → Option FundamentalData)
    (hok : ∀ s ∈ tickers, rowOkB (lookup s) = true)
    (r : ScanRow) (hr : r ∈ scanRows tickers lookup) :
    (∃ q, streamKey r = .fin q) ∧ batchKey r = streamKey r := by
  rcases scanRow_fin_of_rowOk tickers lookup hok r hr with ⟨p, i, hp, hp0, hi, hi0⟩
  constructor
  · refine ⟨qdiv p i, ?_⟩
    rw [streamKey, hp, hi]
    simp [jsDiv, hi0]
  · rw [batchKey, streamKey, hp, hi]
    simp [truthyNum, hp0, hi0]

/-- The streaming fold keeps its accumulated result array equal to the
stable sort of the qualifying rows seen so far, and its last emission
equal to that array stripped for display.  Requires the regularity
condition so that the incremental re-sorts are idempotent. -/
theorem streamFold_spec (lookup : String → Option FundamentalData)
    (tickers : List String) (acc : List ScanRow × List (List DisplayRow))
    (rowsAcc : List ScanRow)
    (hres : acc.1 = jsSortBy (cmpLe streamKey) rowsAcc)
    (hemit : acc.2.getLastD [] = acc.1.map stripRow)
    (hfin : ∀ r ∈ rowsAcc ++ scanRows tickers lookup, ∃ q, streamKey r = .fin q) :
    (tickers.foldl (streamStep lookup) acc).1
        = jsSortBy (cmpLe streamKey) (rowsAcc ++ scanRows tickers lookup)
      ∧ (tickers.foldl (streamStep lookup) acc).2.getLastD []
        = ((tickers.foldl (streamStep lookup) acc).1).map stripRow := by
  induction tickers generalizing acc rowsAcc with
  | nil =>
    simp only [List.foldl_nil]
    constructor
    · rw [hres]
      simp [scanRows]
    · exact hemit
  | cons t ts ih =>
    rw [List.foldl_cons]
    rcases hrow : rowOf lookup t with _ | r
    · have hstep : streamStep lookup acc t = acc := by
        rw [streamStep, hrow]
      rw [hstep]
      have hsc : scanRows (t :: ts) lookup = scanRows ts lookup := by
        rw [scanRows_cons, hrow]
      rw [hsc] at hfin ⊢
      exact ih acc rowsAcc hres hemit hfin
    · have hsc : scanRows (t :: ts) lookup = r :: scanRows ts lookup := by
        rw [scanRows_cons, hrow]
      rw [hsc] at hfin ⊢
      have hstep : streamStep lookup acc t
          = (jsSortBy (cmpLe streamKey) (acc.1 ++ [r]),
             acc.2 ++ [(jsSortBy (cmpLe streamKey) (acc.1 ++ [r])).map stripRow]) := by
        rw [streamStep, hrow]
      rw [hstep]
      have hfinsorted : ∀ y ∈ jsSortBy (cmpLe streamKey) rowsAcc, ∃ q, streamKey y = .fin q := by
        intro y hy
        have hy' := (mem_jsSortBy (cmpLe streamKey) y rowsAcc).mp hy
        exact hfin y (by simp [hy'])
      have hid : jsSortBy (cmpLe streamKey) (jsSortBy (cmpLe streamKey) rowsAcc)
          = jsSortBy (cmpLe streamKey) rowsAcc := by
        refine jsSortBy_sorted_id (cmpLe streamKey) (fun y => ∃ q, streamKey y = .fin q)
          ?_ _ hfinsorted (jsSortBy_chain _ (cmpLe_total streamKey) rowsAcc)
        intro a b c hfa hfb hfc h₁ h₂
        exact cmpLe_trans_fin streamKey a b c hfa hfb hfc h₁ h₂
      have hnew : jsSortBy (cmpLe streamKey) (acc.1 ++ [r])
          = jsSortBy (cmpLe streamKey) (rowsAcc ++ [r]) := by
        rw [hres, jsSortBy_append_one, jsSortBy_append_one, hid]
      have happ : rowsAcc ++ r :: scanRows ts lookup
          = (rowsAcc ++ [r]) ++ scanRows ts lookup := by
        simp
      rw [happ] at hfin ⊢
      refine ih _ (rowsAcc ++ [r]) ?_ ?_ hfin
      · exact hnew
      · simp [hnew]

/-- The final display of the streaming scan is the stable sort of all
qualifying rows by the streaming key, stripped. -/
theorem finalDisplayed_eq (tickers : List String)
    (lookup : String → Option FundamentalData)
    (hfin : ∀ r ∈ scanRows tickers lookup, ∃ q, streamKey r = .fin q) :
    finalDisplayed tickers lookup
      = (jsSortBy (cmpLe streamKey) (scanRows tickers lookup)).map stripRow := by
  have h := streamFold_spec lookup tickers ([], []) [] (by simp [jsSortBy]) (by simp)
    (by simpa using hfin)
  rw [finalDisplayed, scanAndDisplayUndervalued, h.2, h.1]
  simp

/-! ### Formatting characterizations -/

theorem natCharsAux_head (fuel n : ℕ) (h : n < fuel) :
    ∃ k rest, natCharsAux fuel n = Nat.digitChar k :: rest ∧ k < 10 := by
  induction fuel generalizing n with
  | zero => omega
  | succ fuel ih =>
    rw [natCharsAux]
    by_cases h10 : n < 10
    · rw [if_pos h10]
      exact ⟨n, [], rfl, h10⟩
    · rw [if_neg h10]
      have hlt : n / 10 < n := Nat.div_lt_self (by omega) (by omega)
      rcases ih (n / 10) (by omega) with ⟨k, rest, heq, hk⟩
      exact ⟨k, rest ++ [Nat.digitChar (n % 10)], by rw [heq]; rfl, hk⟩

theorem natChars_head (n : ℕ) :
    ∃ k rest, natChars n = Nat.digitChar k :: rest ∧ k < 10 :=
  natCharsAux_head (n + 1) n (by omega)

theorem toFixedPosChars_head (q : ℚ) (d : ℕ) :
    ∃ k rest, toFixedPosChars q d = Nat.digitChar k :: rest ∧ k < 10 := by
  rw [toFixedPosChars]
  by_cases hd : d = 0
  · simp only [hd, if_pos]
    exact natChars_head _
  · simp only [hd, if_neg, ite_false]
    rcases natChars_head ((2 * (q.num * 10 ^ d) + (q.den : Int)).toNat / (2 * q.den) / 10 ^ d)
      with ⟨k, rest, heq, hk⟩
    exact ⟨k, rest ++ _, by rw [heq]; rfl, hk⟩

theorem format_fin_ne_na (q : ℚ) (d : ℕ) : String.mk (toFixedChars q d) ≠ "N/A" := by
  intro h
  have hdata : toFixedChars q d = ['N', '/', 'A'] := by
    have := congrArg String.data h
    simpa using this
  rw [toFixedChars] at hdata
  by_cases hq : q < 0
  · rw [if_pos hq] at hdata
    simp at hdata
  · rw [if_neg hq] at hdata
    rcases toFixedPosChars_head q d with ⟨k, rest, heq, hk⟩
    rw [heq] at hdata
    have hne : Nat.digitChar k ≠ 'N' := by
      interval_cases k <;> decide
    exact hne (by injection hdata)

theorem format_na_iff (o : Option JSNum) (d : ℕ) :
    format o d = "N/A" ↔ isFiniteOpt o = false := by
  rcases o with _ | v
  · simp [format, isFiniteOpt]
  rcases v with _ | _ | _ | q <;>
    simp [format, isFiniteOpt, format_fin_ne_na]

theorem isFiniteOpt_numGuard (o : Option JSNum) :
    isFiniteOpt (numGuard o) = isFiniteOpt o := by
  rcases o with _ | v
  · rfl
  rcases v with _ | _ | _ | q <;> simp [numGuard, isFiniteOpt]

theorem finNonzeroOpt_numGuard (o : Option JSNum) :
    finNonzeroOpt (numGuard o) = finNonzeroOpt o := by
  rcases o with _ | v
  · rfl
  rcases v with _ | _ | _ | q <;> simp [numGuard, finNonzeroOpt]

theorem condDiv_fin_eq (a b : Option JSNum) :
    isFiniteOpt (condDiv a b) = (finNonzeroOpt a && optTruthy b) := by
  rcases a with _ | va
  · rcases b with _ | vb <;> rfl
  rcases b with _ | vb
  · rcases va with _ | _ | _ | qa <;>
      simp [condDiv, isFiniteOpt, finNonzeroOpt, optTruthy]
  rcases va with _ | _ | _ | qa <;> rcases vb with _ | _ | _ | qb <;>
    simp only [condDiv, truthyNum, finNonzeroOpt, optTruthy, jsDiv] <;>
    first
    | rfl
    | (by_cases hqa : qa = 0 <;> by_cases hqb : qb = 0 <;>
        simp [hqa, hqb, isFiniteOpt, jsDiv])
    | (by_cases hqa : qa = 0 <;> simp [hqa, isFiniteOpt])
    | (by_cases hqb : qb = 0 <;> by_cases hqlt : qb < 0 <;>
        simp [hqb, hqlt, isFiniteOpt])

theorem format_condDiv_na_iff (a b : Option JSNum) (d : ℕ) :
    format (condDiv a b) d = "N/A"
      ↔ ¬(finNonzeroOpt a = true ∧ optTruthy b = true) := by
  rw [format_na_iff, condDiv_fin_eq]
  simp

theorem numGuard_ne_some_nan (o : Option JSNum) : numGuard o ≠ some .nan := by
  rcases o with _ | v
  · simp [numGuard]
  · rw [numGuard]
    by_cases h : v = .nan
    · simp [h]
    · simp [h]

theorem format_supplied_or_div_na_iff (x a b : Option JSNum) (d : ℕ) :
    format (match numGuard x with
            | some v => some v
            | none => condDiv a b) d = "N/A"
      ↔ ¬(isFiniteOpt x = true
          ∨ (numberOpt x = false ∧ finNonzeroOpt a = true ∧ optTruthy b = true)) := by
  rcases hx : numGuard x with _ | v
  · have h1 : numberOpt x = false := by simp [numberOpt, hx]
    have h2 : isFiniteOpt x = false := by rw [← isFiniteOpt_numGuard, hx]; rfl
    rw [format_condDiv_na_iff]
    simp [h1, h2]
  · have h1 : numberOpt x = true := by simp [numberOpt, hx]
    have h2 : isFiniteOpt x = isFiniteOpt (some v) := by
      rw [← isFiniteOpt_numGuard, hx]
    rw [format_na_iff]
    simp [h1, h2]

theorem format_intrinsic_na_iff (o : Option JSNum) (d : ℕ) :
    format (match numGuard o with
            | some dv => if truthyNum dv then some (jsDiv dv (.fin discountRate)) else none
            | none => none) d = "N/A"
      ↔ finNonzeroOpt o = false := by
  have hdrpos : ¬((discountRate : ℚ) < 0) := by decide
  have hdrz : (discountRate : ℚ) ≠ 0 := by decide
  rcases ho : numGuard o with _ | dv
  · have h : finNonzeroOpt o = false := by rw [← finNonzeroOpt_numGuard, ho]; rfl
    simp [format, h]
  · have hfz : finNonzeroOpt o = finNonzeroOpt (some dv) := by
      rw [← finNonzeroOpt_numGuard, ho]
    rcases dv with _ | _ | _ | q
    · exact absurd ho (numGuard_ne_some_nan o)
    · rw [hfz]
      simp [truthyNum, jsDiv, format, finNonzeroOpt, hdrpos]
    · rw [hfz]
      simp [truthyNum, jsDiv, format, finNonzeroOpt, hdrpos]
    · rw [hfz]
      by_cases hq : q = 0
      · simp [truthyNum, hq, format, finNonzeroOpt]
      · simp [truthyNum, hq, jsDiv, hdrz, format, finNonzeroOpt, format_fin_ne_na]

theorem sortedByKey_iff_chain (key : ScanRow → JSNum) (l : List ScanRow) :
    sortedByKey key l = true
      ↔ List.Chain' (fun a b => cmpLe key a b = true) l := by
  induction l with
  | nil => simp [sortedByKey]
  | cons a t ih =>
    cases t with
    | nil => simp [sortedByKey]
    | cons b t' =>
      rw [sortedByKey, List.chain'_cons, Bool.and_eq_true, ih]

/-! ### Claim C1 — the inclusion test of the scan modes -/

/-- Claim C1, counterexample: the claim's inclusion condition (finite
price, finite dividend so that the intrinsic value is defined, and
strictly `price < intrinsic`) holds at `price = -1`,
`dividendPerShare = 0` (intrinsic `0/0.08 = 0` and `-1 < 0`), yet the
code excludes the row: a zero dividend is falsy, so no intrinsic value
is ever computed.  The claimed "iff" is therefore false on the code. -/
theorem c1_counterexample :
    includeTest ⟨some (.fin (-1)), none, none, none, none, none, some (.fin 0), none⟩ = false
    ∧ isFiniteOpt (some (.fin (-1))) = true
    ∧ isFiniteOpt (some (.fin 0)) = true
    ∧ ((-1 : ℚ) < (0 : ℚ) / discountRate)
    ∧ scanAllUndervalued ["x"]
        (fun _ => some ⟨some (.fin (-1)), none, none, none, none, none, some (.fin 0), none⟩)
        = [] := by
  refine ⟨by decide, by decide, by decide, ?_, by decide⟩
  rw [zero_div]
  norm_num

/-- Claim C1, amended: for a resolved record whose price and
dividendPerShare are finite numbers, the row is included in a scan's
result set iff the dividend is additionally non-zero (JavaScript
truthiness: a zero dividend yields no intrinsic value and always
excludes) and `price < dividendPerShare / 0.08` holds strictly. -/
theorem discountRate_eq : (discountRate : ℚ) = 2 / 25 := by
  rw [discountRate, Rat.mkRat_eq_divInt, Rat.divInt_eq_div]
  norm_num

theorem c1_includeTest_iff (f : FundamentalData) (p d : ℚ)
    (hp : f.price = some (.fin p)) (hd : f.dividendPerShare = some (.fin d)) :
    includeTest f = true ↔ (d ≠ 0 ∧ p < d / discountRate) := by
  have hdrz : (discountRate : ℚ) ≠ 0 := by decide
  rw [includeTest, intrinsicOf, hp, hd]
  simp only [numGuard, if_neg (by simp : (JSNum.fin p) ≠ JSNum.nan),
    if_neg (by simp : (JSNum.fin d) ≠ JSNum.nan)]
  by_cases hd0 : d = 0
  · subst hd0
    simp [truthyNum]
  · have ht : truthyNum (JSNum.fin d) = true := by simp [truthyNum, hd0]
    simp only [ht, if_true]
    simp only [jsDiv, if_neg hdrz, jsLt]
    rw [qdiv_eq d discountRate hdrz]
    simp [hd0]

/-- Claim C1, witness: the spec's example `price = 40`,
`dividendPerShare = 5` (intrinsic `62.50`) is included. -/
theorem c1_witness :
    includeTest ⟨some (.fin 40), none, none, none, none, none, some (.fin 5), none⟩ = true := by
  rw [c1_includeTest_iff _ 40 5 rfl rfl]
  refine ⟨by norm_num, ?_⟩
  rw [discountRate_eq]
  norm_num

/-! ### Claim C3 — the P/E field -/

/-- Claim C3, counterexample: at the finite inputs `price = 0`,
`eps = 10` the claim demands `pe = (0/10).toFixed(2) = "0.00"`, but the
code's truthiness guard (`price && eps`) treats the zero price as
absent and produces `"N/A"`. -/
theorem c3_counterexample :
    (computeMetrics ⟨some (.fin 0), some (.fin 10), none, none, none, none, none, none⟩).pe
        = "N/A"
    ∧ isFiniteOpt (some (.fin 0)) = true
    ∧ isFiniteOpt (some (.fin 10)) = true
    ∧ String.mk (toFixedChars ((0 : ℚ) / (10 : ℚ)) 2) = "0.00" := by
  refine ⟨by decide, by decide, by decide, ?_⟩
  rw [zero_div]
  decide

/-- Claim C3, amended: for finite and non-zero price and eps,
`pe` is the `toFixed(2)` rendering of `price / eps`; when `eps` is
absent (or NaN), when `eps` is zero (the division is never performed),
and also when `price` is zero, `pe` is `"N/A"`. -/
theorem c3_pe_formats (f : FundamentalData) :
    (∀ p e : ℚ, f.price = some (.fin p) → f.eps = some (.fin e) → p ≠ 0 → e ≠ 0 →
      (computeMetrics f).pe = String.mk (toFixedChars (p / e) 2))
    ∧ (numGuard f.eps = none → (computeMetrics f).pe = "N/A")
    ∧ (f.eps = some (.fin 0) → (computeMetrics f).pe = "N/A")
    ∧ (f.price = some (.fin 0) → (computeMetrics f).pe = "N/A") := by
  refine ⟨?_, ?_, ?_, ?_⟩
  · intro p e hp he hp0 he0
    show format (condDiv (numGuard f.price) (numGuard f.eps)) 2 = _
    rw [hp, he]
    simp only [numGuard, if_neg (by simp : (JSNum.fin p) ≠ JSNum.nan),
      if_neg (by simp : (JSNum.fin e) ≠ JSNum.nan)]
    simp only [condDiv, truthyNum]
    rw [if_pos (by simp [hp0, he0])]
    simp only [jsDiv, if_neg he0, format]
    rw [qdiv_eq p e he0]
  · intro he
    show format (condDiv (numGuard f.price) (numGuard f.eps)) 2 = _
    rw [he]
    rcases numGuard f.price with _ | v <;> rfl
  · intro he
    show format (condDiv (numGuard f.price) (numGuard f.eps)) 2 = _
    rw [he]
    rcases hpv : numGuard f.price with _ | v
    · rfl
    · simp [condDiv, numGuard, truthyNum, format]
  · intro hp
    show format (condDiv (numGuard f.price) (numGuard f.eps)) 2 = _
    rw [hp]
    rcases hev : numGuard f.eps with _ | v
    · rfl
    · simp [condDiv, numGuard, truthyNum, format]

/-- Claim C3, witness: `price = 100`, `eps = 10` gives `pe = "10.00"`;
`eps = 0` gives `"N/A"`. -/
theorem c3_witness :
    (computeMetrics ⟨some (.fin 100), some (.fin 10), none, none, none, none, none, none⟩).pe
        = "10.00"
    ∧ (computeMetrics ⟨some (.fin 100), some (.fin 0), none, none, none, none, none, none⟩).pe
        = "N/A" := by
  constructor
  · have h := (c3_pe_formats
      ⟨some (.fin 100), some (.fin 10), none, none, none, none, none, none⟩).1
      100 10 rfl rfl (by norm_num) (by norm_num)
    rw [h, show (100 : ℚ) / 10 = 10 by norm_num]
    decide
  · exact (c3_pe_formats
      ⟨some (.fin 100), some (.fin 0), none, none, none, none, none, none⟩).2.2.1 rfl

/-! ### Claim C2 — the "N/A" invariant of computeMetrics -/

/-- Claim C2, counterexample: with `dividendPerShare = 0` (present and
finite) the `intrinsicDividend` field is `"N/A"` although its precursor
`0 / 0.08 = 0` is a finite value and the fixed denominator `0.08` is
neither absent nor zero: the claimed "if and only if" fails, because
JavaScript truthiness also short-circuits on a zero numerator. -/
theorem c2_counterexample :
    (computeMetrics ⟨none, none, none, none, none, none, some (.fin 0), none⟩).intrinsicDividend
        = "N/A"
    ∧ isFiniteOpt (some (.fin 0)) = true
    ∧ (discountRate : ℚ) ≠ 0 := by
  refine ⟨by decide, by decide, by decide⟩

/-- Claim C2, amended: the exact "N/A" characterization of every field
of `computeMetrics`.  Plain fields are "N/A" iff the input is absent or
not a finite number.  Derived ratios are additionally "N/A" when a
truthiness guard fails — i.e. when the numerator is absent, NaN, zero
or not finite, or the denominator is absent, NaN or zero — and the
supplied-value fields (`evEbitda`, `dividendYield`) consult the
fallback division only when the supplied value is absent or NaN.
Non-"N/A" fields are the fixed-precision `toFixed` rendering of the
finite input (two decimals; four for `dividendYield`). -/
theorem c2_na_characterization (data : FundamentalData) :
    ((computeMetrics data).price = "N/A" ↔ isFiniteOpt data.price = false)
    ∧ ((computeMetrics data).eps = "N/A" ↔ isFiniteOpt data.eps = false)
    ∧ ((computeMetrics data).bookValue = "N/A" ↔ isFiniteOpt data.bookValue = false)
    ∧ ((computeMetrics data).dividendPerShare = "N/A"
        ↔ isFiniteOpt data.dividendPerShare = false)
    ∧ ((computeMetrics data).pe = "N/A"
        ↔ ¬(finNonzeroOpt data.price = true ∧ optTruthy (numGuard data.eps) = true))
    ∧ ((computeMetrics data).pb = "N/A"
        ↔ ¬(finNonzeroOpt data.price = true ∧ optTruthy (numGuard data.bookValue) = true))
    ∧ ((computeMetrics data).evEbitda = "N/A"
        ↔ ¬(isFiniteOpt data.evToEbitda = true
            ∨ (numberOpt data.evToEbitda = false
               ∧ finNonzeroOpt data.enterpriseValue = true
               ∧ optTruthy (numGuard data.ebitda) = true)))
    ∧ ((computeMetrics data).dividendYield = "N/A"
        ↔ ¬(isFiniteOpt data.dividendYield = true
            ∨ (numberOpt data.dividendYield = false
               ∧ finNonzeroOpt data.dividendPerShare = true
               ∧ optTruthy (numGuard data.price) = true)))
    ∧ ((computeMetrics data).intrinsicDividend = "N/A"
        ↔ finNonzeroOpt data.dividendPerShare = false)
    ∧ (∀ q : ℚ, data.price = some (.fin q) →
        (computeMetrics data).price = String.mk (toFixedChars q 2))
    ∧ (∀ q : ℚ, data.dividendPerShare = some (.fin q) →
        (computeMetrics data).dividendPerShare = String.mk (toFixedChars q 2)) := by
  refine ⟨?_, ?_, ?_, ?_, ?_, ?_, ?_, ?_, ?_, ?_, ?_⟩
  · show format (numGuard data.price) 2 = "N/A" ↔ _
    rw [format_na_iff, isFiniteOpt_numGuard]
  · show format (numGuard data.eps) 2 = "N/A" ↔ _
    rw [format_na_iff, isFiniteOpt_numGuard]
  · show format (numGuard data.bookValue) 2 = "N/A" ↔ _
    rw [format_na_iff, isFiniteOpt_numGuard]
  · show format (numGuard data.dividendPerShare) 2 = "N/A" ↔ _
    rw [format_na_iff, isFiniteOpt_numGuard]
  · show format (condDiv (numGuard data.price) (numGuard data.eps)) 2 = "N/A" ↔ _
    rw [format_condDiv_na_iff, finNonzeroOpt_numGuard]
  · show format (condDiv (numGuard data.price) (numGuard data.bookValue)) 2 = "N/A" ↔ _
    rw [format_condDiv_na_iff, finNonzeroOpt_numGuard]
  · show format (match numGuard data.evToEbitda with
      | some v => some v
      | none => condDiv (numGuard data.enterpriseValue) (numGuard data.ebitda)) 2 = "N/A" ↔ _
    rw [format_supplied_or_div_na_iff, finNonzeroOpt_numGuard]
  · show format (match numGuard data.dividendYield with
      | some v => some v
      | none => condDiv (numGuard data.dividendPerShare) (numGuard data.price)) 4 = "N/A" ↔ _
    rw [format_supplied_or_div_na_iff, finNonzeroOpt_numGuard]
  · show format (match numGuard data.dividendPerShare with
      | some dv => if truthyNum dv then some (jsDiv dv (.fin discountRate)) else none
      | none => none) 2 = "N/A" ↔ _
    rw [format_intrinsic_na_iff]
  · intro q hq
    show format (numGuard data.price) 2 = _
    rw [hq]
    simp [numGuard, format]
  · intro q hq
    show format (numGuard data.dividendPerShare) 2 = _
    rw [hq]
    simp [numGuard, format]

/-- Claim C2, witness: a finite price formats with two decimals; an
input with `dividendPerShare = 4` has a non-"N/A" intrinsic value. -/
theorem c2_witness :
    (computeMetrics ⟨some (.fin 40), none, none, none, none, none, some (.fin 4), none⟩).price
        = "40.00" := by
  have h := (c2_na_characterization
    ⟨some (.fin 40), none, none, none, none, none, some (.fin 4), none⟩).2.2.2.2.2.2.2.2.2.1
    40 rfl
  rw [h]
  decide

/-! ### Claim C4 — resolver priority -/

/-- Claim C4: `lookupTicker` queries Variant A (FMP) exactly when its
key is configured; queries Variant B (Alpha Vantage) exactly when its
key is configured and the first stage produced absent (no key, or
Variant A returned absent); returns Variant A's result untouched when
it is non-absent (Variant B never invoked); returns Variant B's result
untouched whenever Variant B is invoked (no merging); and yields absent
when neither key is configured. -/
theorem c4_lookupTicker_priority (keys : ApiKeys)
    (fmpF alphaF : String → Option FundamentalData) (s : String) :
    ((lookupTickerTrace keys fmpF alphaF s).2.1 = strTruthy keys.fmp)
    ∧ ((lookupTickerTrace keys fmpF alphaF s).2.2
        = (strTruthy keys.alpha && (!strTruthy keys.fmp || (fmpF (jsUpper s)).isNone)))
    ∧ (strTruthy keys.fmp = true → fmpF (jsUpper s) ≠ none →
        lookupTicker keys fmpF alphaF s = fmpF (jsUpper s)
          ∧ (lookupTickerTrace keys fmpF alphaF s).2.2 = false)
    ∧ ((lookupTickerTrace keys fmpF alphaF s).2.2 = true →
        lookupTicker keys fmpF alphaF s = alphaF (jsUpper s))
    ∧ (strTruthy keys.fmp = false → strTruthy keys.alpha = false →
        lookupTicker keys fmpF alphaF s = none) := by
  by_cases hf : strTruthy keys.fmp = true <;>
    by_cases ha : strTruthy keys.alpha = true <;>
    rcases hdata : fmpF (jsUpper s) with _ | v <;>
    simp [lookupTicker, lookupTickerTrace, hf, ha, hdata]

/-- Claim C4, witness: both keys configured and Variant A succeeding
resolves to Variant A's record without invoking Variant B. -/
theorem c4_witness :
    lookupTicker ⟨"demo", "fmpkey"⟩
        (fun _ => some ⟨some (.fin 1), none, none, none, none, none, none, none⟩)
        (fun _ => none) "msft"
      = some ⟨some (.fin 1), none, none, none, none, none, none, none⟩
    ∧ (lookupTickerTrace ⟨"demo", "fmpkey"⟩
        (fun _ => some ⟨some (.fin 1), none, none, none, none, none, none, none⟩)
        (fun _ => none) "msft").2.2 = false := by
  have h := (c4_lookupTicker_priority ⟨"demo", "fmpkey"⟩
    (fun _ => some ⟨some (.fin 1), none, none, none, none, none, none, none⟩)
    (fun _ => none) "msft").2.2.1 (by decide) (by simp)
  exact h

/-! ### Claim C5 — ordering of the batch result set -/

/-- Claim C5, counterexample: a zero-price dividend payer passes the
inclusion test (`0 < 50`), but the batch comparator treats its falsy
`_priceNumeric` as ratio `Infinity`, so the row ranks last: the batch
result `[AA, BB]` is not ascending in the true ratio
`price/intrinsicValue` (`0.64` before `0`). -/
theorem c5_counterexample :
    ((scanAllRanked ["aa", "bb"]
        (fun s =>
          if s = "aa" then
            some ⟨some (.fin 40), none, none, none, none, none, some (.fin 5), none⟩
          else if s = "bb" then
            some ⟨some (.fin 0), none, none, none, none, none, some (.fin 4), none⟩
          else none)).map ScanRow.ticker = ["AA", "BB"])
    ∧ sortedByKey streamKey
        (scanAllRanked ["aa", "bb"]
          (fun s =>
            if s = "aa" then
              some ⟨some (.fin 40), none, none, none, none, none, some (.fin 5), none⟩
            else if s = "bb" then
              some ⟨some (.fin 0), none, none, none, none, none, some (.fin 4), none⟩
            else none)) = false := by
  refine ⟨by decide, by decide⟩

/-- Claim C5, amended: the batch result set is always sorted ascending
in the batch comparator's key — `price/intrinsicValue` with a falsy
(zero) price or intrinsic value keyed as `+Infinity` — and the returned
rows are exactly that ranked set stripped of the transient fields.
(Rows lacking one of the two numeric values cannot occur: the inclusion
test requires both to be non-null.) -/
theorem c5_batch_sorted (tickers : List String)
    (lookup : String → Option FundamentalData) :
    sortedByKey batchKey (scanAllRanked tickers lookup) = true
    ∧ scanAllUndervalued tickers lookup = (scanAllRanked tickers lookup).map stripRow := by
  constructor
  · rw [sortedByKey_iff_chain]
    exact jsSortBy_chain (cmpLe batchKey) (cmpLe_total batchKey) (scanRows tickers lookup)
  · rfl

/-! ### Claim C6 — streaming refines batch -/

/-- Claim C6, counterexample: over the universe `["aa", "bb"]` with
`aa ↦ (price 40, dividend 5)` and `bb ↦ (price 0, dividend 4)` the
batch scan returns `[AA, BB]` (the comparator guard sends the falsy
zero price to `Infinity`), while the streaming scan's final emission is
`[BB, AA]` (its comparator divides directly, ratio `0`): the final
emitted sequence differs from the batch sequence, so the two modes do
not apply an identical ranking rule. -/
theorem c6_counterexample :
    finalDisplayed ["aa", "bb"]
        (fun s =>
          if s = "aa" then
            some ⟨some (.fin 40), none, none, none, none, none, some (.fin 5), none⟩
          else if s = "bb" then
            some ⟨some (.fin 0), none, none, none, none, none, some (.fin 4), none⟩
          else none)
      ≠ scanAllUndervalued ["aa", "bb"]
        (fun s =>
          if s = "aa" then
            some ⟨some (.fin 40), none, none, none, none, none, some (.fin 5), none⟩
          else if s = "bb" then
            some ⟨some (.fin 0), none, none, none, none, none, some (.fin 4), none⟩
          else none) := by
  decide

/-- Claim C6, amended: the streaming scan applies the identical
per-symbol resolution and inclusion test, and whenever every included
row has a finite non-zero price and a finite dividend per share (so
that both comparators coincide and are consistent), its final emitted
row sequence equals the batch scan's result sequence. -/
theorem c6_stream_eq_batch (tickers : List String)
    (lookup : String → Option FundamentalData)
    (hok : ∀ s ∈ tickers, rowOkB (lookup s) = true) :
    finalDisplayed tickers lookup = scanAllUndervalued tickers lookup := by
  have hfin : ∀ r ∈ scanRows tickers lookup, ∃ q, streamKey r = .fin q :=
    fun r hr => (keys_agree_of_rowOk tickers lookup hok r hr).1
  rw [finalDisplayed_eq tickers lookup hfin, scanAllUndervalued, scanAllRanked]
  congr 1
  refine jsSortBy_congr (cmpLe streamKey) (cmpLe batchKey)
    (fun r => r ∈ scanRows tickers lookup) ?_ _ (fun y hy => hy)
  intro a b ha hb
  have ha' := (keys_agree_of_rowOk tickers lookup hok a ha).2
  have hb' := (keys_agree_of_rowOk tickers lookup hok b hb).2
  rw [cmpLe, cmpLe, ha', hb']

/-- Claim C6, witness: on a regular universe (finite non-zero prices,
finite dividends) the two modes agree. -/
theorem c6_witness :
    finalDisplayed ["aa", "bb"]
        (fun s =>
          if s = "aa" then
            some ⟨some (.fin 40), none, none, none, none, none, some (.fin 5), none⟩
          else if s = "bb" then
            some ⟨some (.fin 60), none, none, none, none, none, some (.fin 5), none⟩
          else none)
      = scanAllUndervalued ["aa", "bb"]
        (fun s =>
          if s = "aa" then
            some ⟨some (.fin 40), none, none, none, none, none, some (.fin 5), none⟩
          else if s = "bb" then
            some ⟨some (.fin 60), none, none, none, none, none, some (.fin 5), none⟩
          else none) := by
  exact c6_stream_eq_batch _ _ (by decide)

/-! ### Claim C7 — universe truncation -/

/-- Claim C7: for every listing response, a positive (integral) finite
limit returns exactly the first `limit` extracted symbols in listing
order, while a zero, negative, or non-finite limit returns the entire
extracted list unmodified. -/
theorem c7_fetchNasdaqList_limit (resp : Except Unit JSVal) :
    (∀ n : ℕ, 0 < n → fetchNasdaqList (.fin n) resp = (symbolsOf resp).take n)
    ∧ (∀ q : ℚ, q ≤ 0 → fetchNasdaqList (.fin q) resp = symbolsOf resp)
    ∧ fetchNasdaqList .nan resp = symbolsOf resp
    ∧ fetchNasdaqList .inf resp = symbolsOf resp
    ∧ fetchNasdaqList .ninf resp = symbolsOf resp := by
  refine ⟨?_, ?_, rfl, rfl, rfl⟩
  · intro n hn
    rw [fetchNasdaqList, applyLimit]
    have hne : ((n : ℚ)) ≠ 0 := Nat.cast_ne_zero.mpr (by omega)
    have ht : truthyNum (.fin (n : ℚ)) = true := by simp [truthyNum, hne]
    rw [ht]
    simp only [Bool.not_true, Bool.false_eq_true, if_false]
    rw [if_neg (by exact_mod_cast (by omega : ¬(n : ℤ) ≤ 0))]
    congr 1
    rw [Rat.num_natCast, Rat.den_natCast]
    simp
  · intro q hq
    rw [fetchNasdaqList, applyLimit]
    by_cases h0 : truthyNum (.fin q) = true
    · rw [h0]
      simp only [Bool.not_true, Bool.false_eq_true, if_false]
      rw [if_pos hq]
    · simp only [Bool.not_eq_true] at h0
      rw [h0]
      rfl

/-- Claim C7, witness: `limit = 2` over a three-symbol listing yields
the first two; `limit = 0` yields all three. -/
theorem c7_witness :
    fetchNasdaqList (.fin ((2 : ℕ) : ℚ))
        (.ok (.obj [("data", .obj [("table", .obj [("rows",
          .arr [.obj [("symbol", .str " A ")], .obj [("symbol", .str "B")],
                .obj [("symbol", .str "C")]])])])]))
      = ["A", "B"]
    ∧ fetchNasdaqList (.fin 0)
        (.ok (.obj [("data", .obj [("table", .obj [("rows",
          .arr [.obj [("symbol", .str " A ")], .obj [("symbol", .str "B")],
                .obj [("symbol", .str "C")]])])])]))
      = ["A", "B", "C"] := by
  constructor
  · rw [(c7_fetchNasdaqList_limit _).1 2 (by omega)]
    decide
  · rw [(c7_fetchNasdaqList_limit _).2.1 0 le_rfl]
    decide

/-! ### Claim C8 — uniqueness of the universe list -/

/-- Claim C8, counterexample: `fetchNasdaqList` performs no
deduplication, so a listing payload that repeats a symbol yields it
twice in the universe list. -/
theorem c8_counterexample :
    fetchNasdaqList (.fin 0)
        (.ok (.obj [("data", .obj [("table", .obj [("rows",
          .arr [.obj [("symbol", .str "AAPL")], .obj [("symbol", .str "AAPL")]])])])]))
      = ["AAPL", "AAPL"]
    ∧ ¬(fetchNasdaqList (.fin 0)
        (.ok (.obj [("data", .obj [("table", .obj [("rows",
          .arr [.obj [("symbol", .str "AAPL")], .obj [("symbol", .str "AAPL")]])])])]))).Nodup := by
  refine ⟨by decide, by decide⟩

/-- Claim C8, amended: the universe list contains each symbol at most
once provided the trimmed non-empty symbols extracted from the listing
payload are pairwise distinct (the function itself never deduplicates;
it only passes the extracted list through, possibly truncated). -/
theorem c8_nodup_of_payload_nodup (limit : JSNum) (resp : Except Unit JSVal)
    (h : (symbolsOf resp).Nodup) : (fetchNasdaqList limit resp).Nodup := by
  rcases limit with _ | _ | _ | q
  · exact h
  · exact h
  · exact h
  · by_cases hq0 : q = 0
    · subst hq0
      exact h
    · have ht : truthyNum (.fin q) = true := by simp [truthyNum, hq0]
      by_cases hq : q ≤ 0
      · simp only [fetchNasdaqList, applyLimit, ht, Bool.not_true]
        simpa [hq] using h
      · simp only [fetchNasdaqList, applyLimit, ht, Bool.not_true]
        simp only [if_neg (show ¬((false : Bool) = true) by simp), if_neg hq]
        exact h.sublist (List.take_sublist _ _)

/-- Claim C8, witness: a duplicate-free payload yields a
duplicate-free universe. -/
theorem c8_witness :
    (fetchNasdaqList (.fin 0)
        (.ok (.obj [("data", .obj [("table", .obj [("rows",
          .arr [.obj [("symbol", .str "A")], .obj [("symbol", .str "B")]])])])]))).Nodup := by
  exact c8_nodup_of_payload_nodup (.fin 0) _ (by decide)

/-! ### Claim C9 — Alpha Vantage failure handling -/

theorem except_bind_ok {β γ : Type} (a : β) (f : β → Except Unit γ) :
    (Except.ok a >>= f) = f a := rfl

theorem except_bind_error {β γ : Type} (f : β → Except Unit γ) :
    ((Except.error () : Except Unit β) >>= f) = Except.error () := rfl

theorem except_pure_eq_ok {β : Type} (a : β) : (pure a : Except Unit β) = Except.ok a := rfl

/-- Claim C9, counterexample: a well-formed overview and a quote whose
`05. price` field is the truthy but non-numeric string `"abc"` yield a
*present* record (with `price = NaN`), not an absent result: the code
only tests the field's truthiness, not its numericity, so the claim
"absent whenever the quote does not contain a numeric price field" is
false.  (Downstream, the NaN price is guarded to "N/A" and the symbol
never produces a scan row — the data is not defaulted to zero.) -/
theorem c9_counterexample :
    fetchFromAlpha ⟨"demo", ""⟩
        (.ok (.obj [("EPS", .str "2.5"), ("BookValue", .str "10")]))
        (.ok (.obj [("Global Quote", .obj [("05. price", .str "abc")])]))
      = some ⟨some .nan, some (.fin (mkRat 5 2)), some (.fin 10), some .nan, some .nan,
              some .nan, some .nan, some .nan⟩
    ∧ parseFloat (jsGet (jsGet (.obj [("Global Quote", .obj [("05. price", .str "abc")])])
          "Global Quote") "05. price") = .nan := by
  refine ⟨by decide, by decide⟩

/-- Claim C9, amended: `fetchFromAlpha` returns absent exactly when the
key is unconfigured, the overview fetch throws, the overview is falsy
or an empty object or carries a `Note`/`Error Message` marker, the
quote fetch throws, the quote response is nullish (property access
throws), or the quote object or its `05. price` field is *falsy*.  In
particular a rate-limit marker always yields absent; but a truthy
non-numeric price string yields a present record whose price is NaN
(never a zero default). -/
theorem c9_absent_iff (keys : ApiKeys) (overviewResp quoteResp : Except Unit JSVal) :
    fetchFromAlpha keys overviewResp quoteResp = none
      ↔ (strTruthy keys.alpha = false
        ∨ match overviewResp with
          | .error _ => True
          | .ok overview =>
            (jsTruthy overview = false ∨ keysLength overview = 0
              ∨ jsTruthy (jsGet overview "Note") = true
              ∨ jsTruthy (jsGet overview "Error Message") = true)
            ∨ match quoteResp with
              | .error _ => True
              | .ok quoteData =>
                notNullish quoteData = false
                ∨ jsTruthy (jsGet quoteData "Global Quote") = false
                ∨ jsTruthy (jsGet (jsGet quoteData "Global Quote") "05. price") = false) := by
  rw [fetchFromAlpha.eq_def]
  by_cases hk : strTruthy keys.alpha = true
  · simp only [hk, Bool.not_true]
    rw [if_neg (by simp)]
    rcases overviewResp with e | overview
    · simp
    · simp only
      by_cases hg : (!jsTruthy overview || keysLength overview == 0
          || jsTruthy (jsGet overview "Note")
          || jsTruthy (jsGet overview "Error Message")) = true
      · rw [if_pos hg]
        simp only [Bool.or_eq_true, Bool.not_eq_true', beq_iff_eq] at hg
        simp [hk, hg]
        tauto
      · rw [if_neg hg]
        have hgf := Bool.eq_false_iff.mpr hg
        simp only [Bool.or_eq_false_iff, Bool.not_eq_false', beq_eq_false_iff_ne] at hgf
        obtain ⟨⟨⟨hg1, hg2⟩, hg3⟩, hg4⟩ := hgf
        have hg3' : jsTruthy (jsGet overview "Note") = false := hg3
        have hg4' : jsTruthy (jsGet overview "Error Message") = false := hg4
        rcases quoteResp with e | quoteData
        · simp [hk, hg1, hg2, hg3', hg4']
        · simp only
          by_cases hnn : notNullish quoteData = true
          · rw [show jsGetEx quoteData "Global Quote" = .ok (jsGet quoteData "Global Quote")
              from by rw [jsGetEx, if_pos hnn]]
            simp only
            by_cases hq : (!jsTruthy (jsGet quoteData "Global Quote")
                || !jsTruthy (jsGet (jsGet quoteData "Global Quote") "05. price")) = true
            · rw [if_pos hq]
              simp only [Bool.or_eq_true, Bool.not_eq_true'] at hq
              simp [hk, hg1, hg2, hg3', hg4', hnn, hq]
            · rw [if_neg hq]
              have hqf := Bool.eq_false_iff.mpr hq
              simp only [Bool.or_eq_false_iff, Bool.not_eq_false'] at hqf
              obtain ⟨hq1, hq2⟩ := hqf
              simp [hk, hg1, hg2, hg3', hg4', hnn, hq1, hq2]
          · rw [show jsGetEx quoteData "Global Quote" = .error ()
              from by rw [jsGetEx, if_neg hnn]]
            simp only [Bool.not_eq_true] at hnn
            simp [hk, hg1, hg2, hg3', hg4', hnn]
  · simp only [Bool.not_eq_true] at hk
    simp [hk]

/-- Claim C9, witness: a rate-limit `Note` marker yields absent. -/
theorem c9_witness :
    fetchFromAlpha ⟨"demo", ""⟩
        (.ok (.obj [("Note", .str "rate limit reached")]))
        (.ok (.obj [("Global Quote", .obj [("05. price", .str "100")])]))
      = none := by
  rw [c9_absent_iff]
  right
  left
  right
  right
  left
  decide

/-! ### Claim C10 — FMP failure handling -/

/-- Claim C10, part of the statement: with the key configured,
`fetchFromFMP` is absent exactly when the quote fetch throws, the quote
response is not a non-empty array, the first quote element is nullish
(its property reads throw), the metrics fetch throws, or the metrics
value in use is nullish; a metrics response that is merely not a
non-empty array (a failed or empty lookup) is replaced by `{}` and
never by itself yields absent — instead every unavailable field of the
returned record is the present number NaN, never omitted and never
defaulted to zero. -/
theorem c10_fmp_absent_iff (keys : ApiKeys) (quoteResp metricsResp : Except Unit JSVal) :
    (fetchFromFMP keys quoteResp metricsResp = none
      ↔ (strTruthy keys.fmp = false
        ∨ match quoteResp with
          | .error _ => True
          | .ok quoteData =>
            match quoteData with
            | .arr (quote :: _) =>
              notNullish quote = false
              ∨ match metricsResp with
                | .error _ => True
                | .ok md => notNullish (metricsVal md) = false
            | _ => True))
    ∧ (∀ pv rest mv, strTruthy keys.fmp = true → metricsVal mv = .obj [] →
        fetchFromFMP keys (.ok (.arr (.obj [("price", pv)] :: rest))) (.ok mv)
          = some ⟨some (parseFloat pv), some .nan, some .nan, some .nan, some .nan,
                  none, some .nan, some .nan⟩) := by
  constructor
  · rw [fetchFromFMP.eq_def]
    by_cases hk : strTruthy keys.fmp = true
    · simp only [hk, Bool.not_true]
      rw [if_neg (by simp)]
      rcases quoteResp with e | quoteData
      · simp
      · rcases quoteData with _ | _ | b | n | s | fs | elems
        · simp [hk]
        · simp [hk]
        · simp [hk]
        · simp [hk]
        · simp [hk]
        · simp [hk]
        · rcases elems with _ | ⟨quote, rest⟩
          · simp [hk]
          · by_cases hqn : notNullish quote = true
            · rcases metricsResp with e | md
              · simp only [fetchFromFMPBody]
                rw [show jsGetEx quote "price" = .ok (jsGet quote "price") from by
                  rw [jsGetEx, if_pos hqn]]
                rw [except_bind_ok, except_bind_error]
                simp [hk, hqn]
              · by_cases hmn : notNullish (metricsVal md) = true
                · simp only [fetchFromFMPBody]
                  rw [show jsGetEx quote "price" = .ok (jsGet quote "price") from by
                    rw [jsGetEx, if_pos hqn]]
                  rw [except_bind_ok, except_bind_ok]
                  simp only [jsGetEx, hqn, hmn, if_pos, if_true, except_bind_ok]
                  simp [hk, hqn, hmn, except_pure_eq_ok]
                · simp only [fetchFromFMPBody]
                  rw [show jsGetEx quote "price" = .ok (jsGet quote "price") from by
                    rw [jsGetEx, if_pos hqn]]
                  rw [except_bind_ok, except_bind_ok]
                  rw [show jsGetEx (metricsVal md) "EarningsPerShareTTM" = .error () from by
                    rw [jsGetEx, if_neg (by simp [hmn])]]
                  rw [except_bind_error]
                  simp only [Bool.not_eq_true] at hmn
                  simp [hk, hqn, hmn]
            · simp only [fetchFromFMPBody]
              rw [show jsGetEx quote "price" = .error () from by
                rw [jsGetEx, if_neg (by simp [hqn])]]
              rw [except_bind_error]
              simp only [Bool.not_eq_true] at hqn
              simp [hk, hqn]
    · simp only [Bool.not_eq_true] at hk
      simp [fetchFromFMP, hk]
  · intro pv rest mv hk hmv
    have hbody : fetchFromFMPBody (.obj [("price", pv)]) (.ok mv)
        = .ok ⟨some (parseFloat pv), some .nan, some .nan, some .nan, some .nan,
               none, some .nan, some .nan⟩ := by
      rw [fetchFromFMPBody]
      simp [jsGetEx, notNullish, except_bind_ok, hmv, jsGet, jsOr, jsTruthy, parseFloat,
        List.lookup]
    rw [fetchFromFMP.eq_def]
    simp only [hk, Bool.not_true]
    rw [if_neg (by simp)]
    rw [hbody]

/-- Claim C10, witness: key configured, quote a one-element array with
only a price, metrics an empty array — the result is a present record
whose unavailable fields are all NaN. -/
theorem c10_witness :
    fetchFromFMP ⟨"", "fmpkey"⟩ (.ok (.arr [.obj [("price", .str "12.5")]]))
        (.ok (.arr []))
      = some ⟨some (.fin (mkRat 25 2)), some .nan, some .nan, some .nan, some .nan,
              none, some .nan, some .nan⟩ := by
  have h := (c10_fmp_absent_iff ⟨"", "fmpkey"⟩ (.ok (.arr [.obj [("price", .str "12.5")]]))
    (.ok (.arr []))).2 (.str "12.5") [] (.arr []) (by decide) rfl
  rw [h]
  decide
